import Mathlib

/-!
Verification development for the `turnstyle` repository
(`src/examples/example.rs`), a single Rust file exercising language
features.  The spec's one substantive component is a shared mutable cell
(`Rc<RefCell<T>>`-style) used by `smart_pointer_examples`; its operations
live in the Rust standard library, not in this repository, so they are
modelled from the spec.  The remaining claims concern functions defined
directly in the source (`longest`, `Summable for Vec<T>`, the i32 adders,
and the platform-gated `fabs` call in `main`).
-/

/-! ## Shared mutable cell, modelled from the spec -/

/-- The borrow-state tag of a cell: `Unborrowed`, `SharedBorrowed(count)`,
or `ExclusiveBorrowed` (spec section 3). -/
inductive BorrowState where
  | unborrowed : BorrowState
  | sharedBorrowed (count : Nat) : BorrowState
  | exclusiveBorrowed : BorrowState
  deriving DecidableEq, Repr

/-- The one meaningful error kind (spec section 7). -/
inductive BorrowError where
  | borrowConflict : BorrowError
  deriving DecidableEq, Repr

/-- Modelled from the spec: a `Cell<T>` (specialised to integer values as in
`smart_pointer_examples`) together with its owner count and the live
borrow guards.  `sharedGuards` counts live shared guards and `exclGuards`
counts live exclusive guards; the spec's borrow-state tag is derived from
these counts by `Cell.borrowState`. -/
structure Cell where
  value : Int
  owners : Nat
  sharedGuards : Nat
  exclGuards : Nat
  deriving DecidableEq, Repr

/-- The borrow-state tag determined by the live guard counts. -/
def Cell.borrowState (c : Cell) : BorrowState :=
  if c.exclGuards > 0 then .exclusiveBorrowed
  else if c.sharedGuards > 0 then .sharedBorrowed c.sharedGuards
  else .unborrowed

/-- Modelled from the spec: `create(value)` allocates a Cell in state
`Unborrowed` with owner count 1.  No error conditions. -/
def create (v : Int) : Cell :=
  { value := v, owners := 1, sharedGuards := 0, exclGuards := 0 }

/-- Modelled from the spec: `clone_handle` increments the owner count by 1.
Always succeeds. -/
def clone_handle (c : Cell) : Cell :=
  { c with owners := c.owners + 1 }

/-- Modelled from the spec: `drop_handle` decrements the owner count; when
it reaches zero the Cell and its value are destroyed (`none`). -/
def drop_handle (c : Cell) : Option Cell :=
  if c.owners ≤ 1 then none
  else some { c with owners := c.owners - 1 }

/-- Modelled from the spec: `borrow_shared` succeeds from `Unborrowed` or
`SharedBorrowed(n)` (incrementing the shared count) and fails with
`BorrowConflict` from `ExclusiveBorrowed`. -/
def borrow_shared (c : Cell) : Except BorrowError Cell :=
  if c.exclGuards > 0 then .error .borrowConflict
  else .ok { c with sharedGuards := c.sharedGuards + 1 }

/-- Modelled from the spec: `borrow_exclusive` succeeds only from
`Unborrowed` (no live guard of either kind), transitioning to
`ExclusiveBorrowed`; otherwise it fails with `BorrowConflict`. -/
def borrow_exclusive (c : Cell) : Except BorrowError Cell :=
  if c.sharedGuards = 0 ∧ c.exclGuards = 0 then
    .ok { c with exclGuards := 1 }
  else .error .borrowConflict

/-- Modelled from the spec: `release` of a shared guard decrements the
shared count (reverting to `Unborrowed` once it reaches 0).  A guard may
be released only once, so a release with no live shared guard is a
precondition violation (`none`). -/
def release_shared (c : Cell) : Option Cell :=
  if c.sharedGuards = 0 then none
  else some { c with sharedGuards := c.sharedGuards - 1 }

/-- Modelled from the spec: `release` of an exclusive guard clears
`ExclusiveBorrowed` back to `Unborrowed`.  A release with no live
exclusive guard is a precondition violation (`none`). -/
def release_exclusive (c : Cell) : Option Cell :=
  if c.exclGuards = 0 then none
  else some { c with exclGuards := c.exclGuards - 1 }

/-- Modelled from the spec: reading the value requires a live guard
(shared or exclusive); the value is never accessed without one. -/
def read (c : Cell) : Option Int :=
  if c.sharedGuards > 0 ∨ c.exclGuards > 0 then some c.value else none

/-- Modelled from the spec: mutating the value requires a live exclusive
guard. -/
def write (c : Cell) (v : Int) : Option Cell :=
  if c.exclGuards > 0 then some { c with value := v } else none

/-! ## Reachability by sequences of operations -/

/-- One step of the cell's lifecycle: any operation of the spec's
section 4.1 applied successfully (failed borrows leave the state
unchanged, so they do not produce steps). -/
inductive Step : Cell → Cell → Prop where
  | cloneHandle (c : Cell) : Step c (clone_handle c)
  | dropHandle (c c' : Cell) : drop_handle c = some c' → Step c c'
  | borrowShared (c c' : Cell) : borrow_shared c = .ok c' → Step c c'
  | borrowExclusive (c c' : Cell) : borrow_exclusive c = .ok c' → Step c c'
  | releaseShared (c c' : Cell) : release_shared c = some c' → Step c c'
  | releaseExclusive (c c' : Cell) : release_exclusive c = some c' → Step c c'
  | writeValue (c c' : Cell) (v : Int) : write c v = some c' → Step c c'

/-- States reachable from `create v` by any sequence of operations. -/
inductive Reachable : Cell → Prop where
  | created (v : Int) : Reachable (create v)
  | step {c c' : Cell} : Reachable c → Step c c' → Reachable c'

/-! ## Functions embedded from the source file `src/examples/example.rs` -/

namespace math
namespace ops

/-- `pub fn add(a: i32, b: i32) -> i32 { a + b }` (example.rs line 7).
i32 addition is two's-complement wraparound, modelled on `Int` with an
explicit reduction into `[-2^31, 2^31)`. -/
def add (a b : Int) : Int := (a + b + 2 ^ 31) % 2 ^ 32 - 2 ^ 31

/-- `pub fn sub(a: i32, b: i32) -> i32 { a - b }` (example.rs line 8). -/
def sub (a b : Int) : Int := (a - b + 2 ^ 31) % 2 ^ 32 - 2 ^ 31

end ops
end math

/-- `pub const fn const_add(a: i32, b: i32) -> i32 { a + b }`
(example.rs line 156). -/
def const_add (a b : Int) : Int := (a + b + 2 ^ 31) % 2 ^ 32 - 2 ^ 31

/-- `pub fn documented_add(a: i32, b: i32) -> i32 { a + b }`
(example.rs line 186). -/
def documented_add (a b : Int) : Int := (a + b + 2 ^ 31) % 2 ^ 32 - 2 ^ 31

/-- `fn make_adder(x: i32) -> impl Fn(i32) -> i32 { move |y| x + y }`
(example.rs line 182): returns the closure capturing `x`. -/
def make_adder (x : Int) : Int → Int :=
  fun y => (x + y + 2 ^ 31) % 2 ^ 32 - 2 ^ 31

/-- `pub fn longest<'a>(a: &'a str, b: &'a str) -> &'a str`
(example.rs lines 59-61): `if a.len() >= b.len() { a } else { b }`,
where Rust `str::len` is the UTF-8 byte length. -/
def longest (a b : String) : String :=
  if a.utf8ByteSize ≥ b.utf8ByteSize then a else b

/-- The `for &v in self { acc = acc + v }` loop of `Summable for Vec<T>`
(example.rs lines 31-37), threading the accumulator. -/
def sumLoop {T : Type} [Add T] : List T → T → T
  | [], acc => acc
  | v :: rest, acc => sumLoop rest (acc + v)

/-- `impl<T> Summable<T> for Vec<T>` (example.rs lines 27-38):
`let mut acc = T::default(); for &v in self { acc = acc + v }; acc`,
with the `T::default()` value passed explicitly as `d`. -/
def Vec.sum {T : Type} [Add T] (d : T) (v : List T) : T :=
  sumLoop v d

/-! ## The `main` routine's external effects -/

/-- The operating systems in the `#[cfg(any(...))]` gate of `main`
(example.rs line 237), plus representatives of the ungated rest. -/
inductive TargetOs where
  | linux | macos | freebsd | windows | otherOs
  deriving DecidableEq, Repr

/-- Whether the cfg gate `any(target_os = "linux", target_os = "macos",
target_os = "freebsd")` accepts the platform. -/
def supportedOs : TargetOs → Bool
  | .linux => true
  | .macos => true
  | .freebsd => true
  | .windows => false
  | .otherOs => false

/-- Modelled from the spec: the host absolute-value function
`fabs: (float64) -> float64` declared `extern "C"` (example.rs line 89);
its body is external to the repository.  On `-3.14` the result is exact,
so the value is modelled on the rationals. -/
def fabs (x : ℚ) : ℚ := if x < 0 then -x else x

/-- `unsafe fn call_fabs(x: f64) -> f64 { fabs(x) }`
(example.rs lines 92-94). -/
def call_fabs (x : ℚ) : ℚ := fabs x

/-- An externally visible effect of running the program: writing one line
of text to the console, or one invocation of the foreign `fabs` with its
argument and result. -/
inductive Effect where
  | printLine : Effect
  | ffiFabs (arg result : ℚ) : Effect
  deriving DecidableEq, Repr

/-- The sequence of external effects produced by `main`
(example.rs lines 190-242) on a given platform: twelve `println!` lines
(counting those of the helper routines `match_examples`,
`closure_examples`, `smart_pointer_examples` and `macro_usage`), then —
only when the cfg gate accepts the platform — the foreign call
`call_fabs(-3.14)` followed by the line printing its result. -/
def mainEffects (os : TargetOs) : List Effect :=
  List.replicate 12 .printLine ++
    (if supportedOs os then
      [.ffiFabs (-3.14) (call_fabs (-3.14)), .printLine]
    else [])

/-- An operation in a borrow-shared-only workload: a `borrow_shared`
call or the release of one previously obtained shared guard. -/
inductive SharedOp where
  | borrowOp : SharedOp
  | releaseOp : SharedOp
  deriving DecidableEq, Repr, BEq

/-- Run a sequence of shared-only operations on a cell, failing (`none`)
as soon as a borrow fails or a release has no live guard to release. -/
def runShared : List SharedOp → Cell → Option Cell
  | [], c => some c
  | .borrowOp :: rest, c =>
      match borrow_shared c with
      | .ok c' => runShared rest c'
      | .error _ => none
  | .releaseOp :: rest, c =>
      match release_shared c with
      | some c' => runShared rest c'
      | none => none

/-- The aliasing invariant of the cell: at most one exclusive guard is
live, no shared guard is live together with an exclusive one, and the
derived borrow-state tag is exactly one of `Unborrowed`,
`SharedBorrowed(n ≥ 1)`, `ExclusiveBorrowed`. -/
def AliasInv (c : Cell) : Prop :=
  c.exclGuards ≤ 1 ∧ (0 < c.exclGuards → c.sharedGuards = 0) ∧
    (c.borrowState = .unborrowed ∨
      (∃ n, 1 ≤ n ∧ c.borrowState = .sharedBorrowed n) ∨
      c.borrowState = .exclusiveBorrowed)

/-! ## Theorems -/

/-- C1: `borrow_exclusive` succeeds (yielding a cell in state
`ExclusiveBorrowed`) iff no other guard, shared or exclusive, is live;
otherwise it fails with a `BorrowConflict` error return. -/
theorem borrow_exclusive_iff_no_live_guard (c : Cell) :
    ((∃ c', borrow_exclusive c = .ok c' ∧
        c'.borrowState = .exclusiveBorrowed) ↔
      c.sharedGuards = 0 ∧ c.exclGuards = 0) ∧
    (¬(c.sharedGuards = 0 ∧ c.exclGuards = 0) →
      borrow_exclusive c = .error .borrowConflict) := by
  unfold borrow_exclusive
  constructor
  · constructor
    · rintro ⟨c', hc', _⟩
      by_contra hno
      rw [if_neg hno] at hc'
      exact Except.noConfusion hc'
    · intro hyes
      refine ⟨{ c with exclGuards := 1 }, ?_, ?_⟩
      · rw [if_pos hyes]
      · simp [Cell.borrowState]
  · intro hno
    rw [if_neg hno]

/-- Witness for C1 at a concrete conflicting state. -/
theorem borrow_exclusive_iff_no_live_guard_witness :
    borrow_exclusive
        { value := 5, owners := 1, sharedGuards := 1, exclGuards := 0 } =
      .error .borrowConflict :=
  (borrow_exclusive_iff_no_live_guard _).2 (by decide)

theorem borrowState_cases (c : Cell) :
    c.borrowState = .unborrowed ∨
      (∃ n, 1 ≤ n ∧ c.borrowState = .sharedBorrowed n) ∨
      c.borrowState = .exclusiveBorrowed := by
  unfold Cell.borrowState
  by_cases he : c.exclGuards > 0
  · right; right; rw [if_pos he]
  · by_cases hs : c.sharedGuards > 0
    · right; left
      exact ⟨c.sharedGuards, hs, by rw [if_neg he, if_pos hs]⟩
    · left; rw [if_neg he, if_neg hs]

/-- C2: every state reachable by any sequence of `create`, `clone_handle`,
`borrow_shared`, `borrow_exclusive`, `release` and `drop_handle`
operations satisfies the aliasing invariant: at most one exclusive guard
is live, never together with a shared guard, and the borrow-state is
exactly one of `Unborrowed`, `SharedBorrowed(n ≥ 1)`,
`ExclusiveBorrowed`. -/
theorem reachable_alias_invariant (c : Cell) (h : Reachable c) :
    AliasInv c := by
  induction h with
  | created v =>
      refine ⟨by simp [create], by simp [create], borrowState_cases _⟩
  | step _ hs ih =>
      obtain ⟨ih1, ih2, -⟩ := ih
      cases hs with
      | cloneHandle =>
          exact ⟨ih1, ih2, borrowState_cases _⟩
      | dropHandle c' hd =>
          unfold drop_handle at hd
          split at hd
          · exact Option.noConfusion hd
          · obtain rfl := Option.some.injEq .. ▸ hd
            exact ⟨ih1, ih2, borrowState_cases _⟩
      | borrowShared c' hb =>
          unfold borrow_shared at hb
          split at hb
          · exact Except.noConfusion hb
          · rename_i hcond
            obtain rfl := (Except.ok.injEq ..).mp hb
            refine ⟨ih1, ?_, borrowState_cases _⟩
            intro hpos
            dsimp only at hpos ⊢
            omega
      | borrowExclusive c' hb =>
          unfold borrow_exclusive at hb
          split at hb
          · rename_i hcond
            obtain rfl := (Except.ok.injEq ..).mp hb
            exact ⟨le_refl 1, fun _ => hcond.1, borrowState_cases _⟩
          · exact Except.noConfusion hb
      | releaseShared c' hr =>
          unfold release_shared at hr
          split at hr
          · exact Option.noConfusion hr
          · rename_i hcond
            obtain rfl := Option.some.injEq .. ▸ hr
            refine ⟨ih1, ?_, borrowState_cases _⟩
            intro hpos
            have := ih2 hpos
            omega
      | releaseExclusive c' hr =>
          unfold release_exclusive at hr
          split at hr
          · exact Option.noConfusion hr
          · obtain rfl := Option.some.injEq .. ▸ hr
            refine ⟨by dsimp only; omega, ?_, borrowState_cases _⟩
            intro hpos
            dsimp only at hpos ⊢
            exact ih2 (by omega)
      | writeValue c' v hw =>
          unfold write at hw
          split at hw
          · obtain rfl := Option.some.injEq .. ▸ hw
            exact ⟨ih1, ih2, borrowState_cases _⟩
          · exact Option.noConfusion hw

/-- Witness for C2: the freshly created cell is reachable and satisfies
the invariant. -/
theorem reachable_alias_invariant_witness : AliasInv (create 5) :=
  reachable_alias_invariant (create 5) (Reachable.created 5)

/-- C3: on `create Cell(5)` followed by a successful `borrow_shared`
(guard A), an attempted `borrow_exclusive` while A is live fails with
`BorrowConflict`; the cell passed to the failed borrow is exactly the
one in state `SharedBorrowed(1)` with value 5, untouched. -/
theorem shared_blocks_exclusive_scenario :
    ∃ cA, borrow_shared (create 5) = .ok cA ∧
      cA.borrowState = .sharedBorrowed 1 ∧ cA.value = 5 ∧
      borrow_exclusive cA = .error .borrowConflict := by
  refine ⟨{ value := 5, owners := 1, sharedGuards := 1, exclGuards := 0 },
    ?_, ?_, ?_, ?_⟩ <;> rfl

/-- C4: the scenario create Cell(5) → `borrow_exclusive` → mutate to 6 →
`release` → `borrow_shared` → read 6 → `release`: every step succeeds,
the read observes 6, the final stored value is 6 and the final
borrow-state is `Unborrowed`. -/
theorem mutate_then_read_scenario :
    ∃ c1 c2 c3 c4 c5,
      borrow_exclusive (create 5) = .ok c1 ∧
      write c1 6 = some c2 ∧
      release_exclusive c2 = some c3 ∧
      borrow_shared c3 = .ok c4 ∧
      read c4 = some 6 ∧
      release_shared c4 = some c5 ∧
      c5.value = 6 ∧ c5.borrowState = .unborrowed := by
  refine ⟨{ value := 5, owners := 1, sharedGuards := 0, exclGuards := 1 },
    { value := 6, owners := 1, sharedGuards := 0, exclGuards := 1 },
    { value := 6, owners := 1, sharedGuards := 0, exclGuards := 0 },
    { value := 6, owners := 1, sharedGuards := 1, exclGuards := 0 },
    { value := 6, owners := 1, sharedGuards := 0, exclGuards := 0 },
    ?_, ?_, ?_, ?_, ?_, ?_, ?_, ?_⟩ <;> rfl

/-- C10: `math::ops::add`, `const_add`, `documented_add` and the closure
returned by `make_adder` compute the same function on i32: each returns
the two's-complement sum of its arguments, so they are
interchangeable. -/
theorem adders_all_agree (x y : Int) :
    const_add x y = math.ops.add x y ∧
    documented_add x y = math.ops.add x y ∧
    make_adder x y = math.ops.add x y ∧
    math.ops.add x y = (x + y + 2 ^ 31) % 2 ^ 32 - 2 ^ 31 :=
  ⟨rfl, rfl, rfl, rfl⟩

theorem runShared_ok_of_no_excl (ops : List SharedOp) :
    ∀ c : Cell, c.exclGuards = 0 →
      (∀ n, ((ops.take n).count .releaseOp) ≤
        c.sharedGuards + (ops.take n).count .borrowOp) →
      ∃ c', runShared ops c = some c' ∧ c'.exclGuards = 0 ∧
        c'.sharedGuards + ops.count .releaseOp =
          c.sharedGuards + ops.count .borrowOp := by
  induction ops with
  | nil =>
      intro c hexcl _
      exact ⟨c, rfl, hexcl, by simp⟩
  | cons op rest ih =>
      intro c hexcl hpre
      cases op with
      | borrowOp =>
          have hb : borrow_shared c =
              .ok { c with sharedGuards := c.sharedGuards + 1 } := by
            unfold borrow_shared
            rw [if_neg (by omega)]
          have hpre' : ∀ n, ((rest.take n).count SharedOp.releaseOp) ≤
              c.sharedGuards + 1 + (rest.take n).count SharedOp.borrowOp := by
            intro n
            have := hpre (n + 1)
            simp +decide [List.count_cons] at this
            omega
          obtain ⟨c', hrun, hc'excl, hc'count⟩ :=
            ih { c with sharedGuards := c.sharedGuards + 1 } hexcl hpre'
          refine ⟨c', ?_, hc'excl, ?_⟩
          · simpa [runShared, hb] using hrun
          · simp only at hc'count
            simp +decide [List.count_cons]
            omega
      | releaseOp =>
          have hok : 1 ≤ c.sharedGuards := by
            have := hpre 1
            simp +decide [List.count_cons] at this
            omega
          have hr : release_shared c =
              some { c with sharedGuards := c.sharedGuards - 1 } := by
            unfold release_shared
            rw [if_neg (by omega)]
          have hpre' : ∀ n, ((rest.take n).count SharedOp.releaseOp) ≤
              c.sharedGuards - 1 + (rest.take n).count SharedOp.borrowOp := by
            intro n
            have := hpre (n + 1)
            simp +decide [List.count_cons] at this
            omega
          obtain ⟨c', hrun, hc'excl, hc'count⟩ :=
            ih { c with sharedGuards := c.sharedGuards - 1 } hexcl hpre'
          refine ⟨c', ?_, hc'excl, ?_⟩
          · simpa [runShared, hr] using hrun
          · simp only at hc'count
            simp +decide [List.count_cons]
            omega

/-- C5: in any workload of `borrow_shared` calls interleaved with releases
(no `borrow_exclusive`), where no prefix releases more guards than it
created, every `borrow_shared` call succeeds and after the whole sequence
the live shared count equals the number of guards created and not yet
released. -/
theorem shared_only_workload_ok (v : Int) (ops : List SharedOp)
    (hpre : ∀ n, ((ops.take n).count .releaseOp) ≤
      (ops.take n).count .borrowOp) :
    ∃ c', runShared ops (create v) = some c' ∧
      c'.sharedGuards =
        ops.count .borrowOp - ops.count .releaseOp := by
  obtain ⟨c', hrun, -, hcount⟩ :=
    runShared_ok_of_no_excl ops (create v) rfl
      (by intro n; simpa [create] using hpre n)
  refine ⟨c', hrun, ?_⟩
  simp [create] at hcount
  omega

/-- Witness for C5: two borrows and one release leave one live shared
guard. -/
theorem shared_only_workload_ok_witness :
    ∃ c', runShared [.borrowOp, .borrowOp, .releaseOp] (create 5) = some c' ∧
      c'.sharedGuards =
        ([SharedOp.borrowOp, .borrowOp, .releaseOp].count .borrowOp -
          [SharedOp.borrowOp, .borrowOp, .releaseOp].count .releaseOp) :=
  shared_only_workload_ok 5 [.borrowOp, .borrowOp, .releaseOp]
    (by intro n; rcases n with _ | _ | _ | n <;> simp +decide [List.count_cons])

/-- C6: `clone_handle` always succeeds and increments the owner count by
exactly 1; `drop_handle` on the clone restores the cell exactly, so the
owner count is unchanged by the round trip; `drop_handle` decrements the
owner count by exactly 1, destroying the cell when it reaches zero. -/
theorem clone_drop_round_trip (c : Cell) (h : 1 ≤ c.owners) :
    (clone_handle c).owners = c.owners + 1 ∧
    drop_handle (clone_handle c) = some c ∧
    (c.owners = 1 → drop_handle c = none) ∧
    (2 ≤ c.owners → ∃ c₂, drop_handle c = some c₂ ∧
      c₂.owners = c.owners - 1) := by
  refine ⟨rfl, ?_, ?_, ?_⟩
  · unfold drop_handle clone_handle
    rw [if_neg (by dsimp only; omega)]
    dsimp only
    simp
  · intro h1
    unfold drop_handle
    rw [if_pos (by omega)]
  · intro h2
    refine ⟨{ c with owners := c.owners - 1 }, ?_, rfl⟩
    unfold drop_handle
    rw [if_neg (by omega)]

/-- Witness for C6 at a cell with two owners. -/
theorem clone_drop_round_trip_witness :
    (clone_handle
        { value := 5, owners := 2, sharedGuards := 0, exclGuards := 0 }).owners
        = 3 ∧
      drop_handle (clone_handle
        { value := 5, owners := 2, sharedGuards := 0, exclGuards := 0 }) =
        some { value := 5, owners := 2, sharedGuards := 0, exclGuards := 0 } :=
  ⟨(clone_drop_round_trip _ (by decide)).1,
    (clone_drop_round_trip _ (by decide)).2.1⟩

/-- C7: the foreign `fabs` call appears among `main`'s effects iff the
platform is one of the supported operating systems (linux, macos,
freebsd); every such call has argument `-3.14` and returns its absolute
value `3.14`; and every other external effect of `main` is a console
line. -/
theorem main_ffi_gating (os : TargetOs) :
    ((∃ a r, Effect.ffiFabs a r ∈ mainEffects os) ↔ supportedOs os = true) ∧
    (∀ a r, Effect.ffiFabs a r ∈ mainEffects os → a = -3.14 ∧ r = 3.14) ∧
    (∀ e ∈ mainEffects os, e = .printLine ∨ ∃ a r, e = .ffiFabs a r) := by
  have habs : call_fabs (-3.14) = 3.14 := by
    norm_num [call_fabs, fabs]
  cases os <;>
    simp [mainEffects, supportedOs, List.mem_replicate, habs]

/-- Witness for C7: on linux the `fabs` invocation with argument `-3.14`
and result `3.14` is among `main`'s effects. -/
theorem main_ffi_gating_witness :
    (-3.14 : ℚ) = -3.14 ∧ (3.14 : ℚ) = 3.14 :=
  (main_ffi_gating .linux).2.1 (-3.14) 3.14
    (by simp [mainEffects, supportedOs, call_fabs, fabs]; norm_num)

/-- C8: `longest a b` returns `a` when `a`'s length (Rust `str::len`,
UTF-8 bytes) is at least `b`'s, and `b` otherwise; in particular at equal
lengths it returns the first argument. -/
theorem longest_spec (a b : String) :
    (b.utf8ByteSize ≤ a.utf8ByteSize → longest a b = a) ∧
    (a.utf8ByteSize < b.utf8ByteSize → longest a b = b) ∧
    (a.utf8ByteSize = b.utf8ByteSize → longest a b = a) := by
  unfold longest
  exact ⟨fun h => if_pos h, fun h => if_neg (by omega),
    fun h => if_pos (by omega)⟩

/-- Witness for C8 on the strings `main` passes to `longest`. -/
theorem longest_spec_witness :
    longest "short" "much longer" = "much longer" :=
  (longest_spec "short" "much longer").2.1 (by decide)

theorem sumLoop_eq_foldl {T : Type} [Add T] (l : List T) :
    ∀ acc : T, sumLoop l acc = l.foldl (fun a x => a + x) acc := by
  induction l with
  | nil => intro acc; rfl
  | cons v rest ih =>
      intro acc
      simpa [sumLoop, List.foldl] using ih (acc + v)

/-- C9: `Vec::sum` equals the left fold of addition over the elements in
order starting from the default value; in particular the sum of the empty
vector is the default value. -/
theorem vec_sum_eq_foldl {T : Type} [Add T] (d : T) (v : List T) :
    Vec.sum d v = v.foldl (fun acc x => acc + x) d ∧
    Vec.sum d ([] : List T) = d :=
  ⟨sumLoop_eq_foldl v d, rfl⟩
